import Mathlib

/-
Shallow embedding of the backup module of the ic-sqlite repository
(src/src/backup.rs and src/src/utils.rs), together with proofs of the
specification's claims about it.

Modelling conventions:
- Bytes are Nat values; byte buffers are List Nat.
- The IC stable-memory region is a Memory record: its size in 64 KiB
  wasm pages (the result of stable64_size) and its byte content as a
  function from absolute byte offset to byte value.
- A Rust computation that can return Result::Err or panic/trap is
  embedded as an RResult: ok carries the value, ioError models a
  returned Err of type io::Error, trap models a panic or an IC canister
  trap (an unwrap of a failed step, or stable64_read aborting on an
  out-of-range access).
- u64 arithmetic wraps modulo 2^64 (release-mode semantics); the i64
  multiplication in read_page_from_vfs composed with the as-u64 cast is
  two's-complement, hence equal to the mathematical product taken
  modulo 2^64, which is how vfsOffset embeds it.
- The SQLite connection, transaction and PRAGMA page_count query are
  external collaborators: they are embedded as a DbEnv record saying
  whether each step (lock acquisition, transaction begin, the page
  count query, commit) succeeds and which page count the query returns.
- The two entry points return, along with the RResult, the list of
  stable64_read calls issued (absolute offset and length), so that
  claims about which storage reads happen are statable.
-/

namespace ICSqlite

/-- Outcome of an embedded Rust computation: a returned value, a returned
Result::Err carrying an io::Error, or a panic / canister trap. -/
inductive RResult (α : Type) where
  | ok : α → RResult α
  | ioError : RResult α
  | trap : RResult α
deriving DecidableEq

/-- The IC stable-memory region: size in 64 KiB wasm pages (what
stable64_size returns) and byte content by absolute offset. -/
structure Memory where
  sizePages : Nat
  data : Nat → Nat

/-- Modulus of u64 arithmetic. -/
def U64 : Nat := 2 ^ 64

/-- Bytes per wasm page (the unit of stable64_size). -/
def WASM_PAGE : Nat := 65536

/-- Total addressable size of the stable region in bytes. -/
def sizeBytes (m : Memory) : Nat := m.sizePages * WASM_PAGE

/-- The len bytes of stable memory starting at offset. -/
def memSlice (m : Memory) (offset len : Nat) : List Nat :=
  (List.range len).map (fun i => m.data (offset + i))

/-- Embedding of ic_cdk stable64_read: copies len bytes starting at
offset into the destination buffer, trapping when the range exceeds the
addressable region. -/
def stable64_read (m : Memory) (offset len : Nat) : RResult (List Nat) :=
  if offset + len ≤ sizeBytes m then .ok (memSlice m offset len) else .trap

/-- Embedding of utils::read. The Rust function takes a mutable buffer
and an offset, calls stable64_read at offset + 8 when stable64_size is
positive (overwriting the whole buffer) and leaves the buffer untouched
otherwise, and returns Ok in every non-trapping case; the embedding
returns the final buffer contents. -/
def read (m : Memory) (buf : List Nat) (offset : Nat) : RResult (List Nat) :=
  if 0 < m.sizePages then
    stable64_read m ((offset + 8) % U64) buf.length
  else
    .ok buf

/-- The stable64_read calls (absolute offset, length) issued by one
utils::read invocation: one call when the region is nonempty, none
otherwise. -/
def readCalls (m : Memory) (len offset : Nat) : List (Nat × Nat) :=
  if 0 < m.sizePages then [((offset + 8) % U64, len)] else []

/-- The u64 offset computed by read_page_from_vfs: the i64 product
(page_number - 1) * page_size cast to u64, i.e. the mathematical
product modulo 2^64. -/
def vfsOffset (page_number : Int) (page_size : Nat) : Nat :=
  (((page_number - 1) * (page_size : Int)) % (U64 : Int)).toNat

/-- Embedding of backup::read_page_from_vfs: allocates a zero buffer of
page_size bytes, computes the page offset, and calls utils::read. -/
def read_page_from_vfs (m : Memory) (page_number : Int) (page_size : Nat) :
    RResult (List Nat) :=
  read m (List.replicate page_size 0) (vfsOffset page_number page_size)

/-- The stable64_read calls issued by one read_page_from_vfs invocation. -/
def readPageCalls (m : Memory) (page_number : Int) (page_size : Nat) :
    List (Nat × Nat) :=
  readCalls m page_size (vfsOffset page_number page_size)

/-- The hardcoded SQLite page size used by both entry points. -/
def PAGE_SIZE : Nat := 4096

/-- The pages visited by the Rust loop for page_number in 1..=page_count,
in order; empty when page_count < 1. -/
def pagesList (page_count : Int) : List Int :=
  (List.range page_count.toNat).map (fun (i : Nat) => (i : Int) + 1)

/-- The page loop of db_backup_on_memory: reads each page with
read_page_from_vfs and .unwrap() (so a returned Err would panic, i.e.
trap), appending page data to the accumulator; also returns the list of
stable64_read calls issued. -/
def backupLoopMem (m : Memory) :
    List Int → List Nat → RResult (List Nat) × List (Nat × Nat)
  | [], acc => (.ok acc, [])
  | pn :: rest, acc =>
    match read_page_from_vfs m pn PAGE_SIZE with
    | .ok pd =>
        let r := backupLoopMem m rest (acc ++ pd)
        (r.1, readPageCalls m pn PAGE_SIZE ++ r.2)
    | .ioError => (.trap, readPageCalls m pn PAGE_SIZE)
    | .trap => (.trap, readPageCalls m pn PAGE_SIZE)

/-- The page loop of stream_db_backup: identical to backupLoopMem except
that a returned Err from read_page_from_vfs is propagated with the
question-mark operator as an Err instead of panicking. -/
def backupLoopStream (m : Memory) :
    List Int → List Nat → RResult (List Nat) × List (Nat × Nat)
  | [], acc => (.ok acc, [])
  | pn :: rest, acc =>
    match read_page_from_vfs m pn PAGE_SIZE with
    | .ok pd =>
        let r := backupLoopStream m rest (acc ++ pd)
        (r.1, readPageCalls m pn PAGE_SIZE ++ r.2)
    | .ioError => (.ioError, readPageCalls m pn PAGE_SIZE)
    | .trap => (.trap, readPageCalls m pn PAGE_SIZE)

/-- The external database collaborator: whether each step of the backup
succeeds, and the page count the PRAGMA page_count query returns. -/
structure DbEnv where
  lockOk : Bool
  beginOk : Bool
  queryOk : Bool
  commitOk : Bool
  pageCount : Int

/-- Embedding of backup::db_backup_on_memory, instrumented with the list
of stable64_read calls issued. The source unwraps the connection lock,
the transaction begin, the page count query, every page read and the
commit, so each of those failures is a trap. -/
def db_backup_on_memory_run (env : DbEnv) (m : Memory) :
    RResult (List Nat) × List (Nat × Nat) :=
  if env.lockOk then
    if env.beginOk then
      if env.queryOk then
        match backupLoopMem m (pagesList env.pageCount) [] with
        | (.ok buf, calls) =>
            (if env.commitOk then .ok buf else .trap, calls)
        | (.ioError, calls) => (.trap, calls)
        | (.trap, calls) => (.trap, calls)
      else (.trap, [])
    else (.trap, [])
  else (.trap, [])

/-- The value db_backup_on_memory produces. -/
def db_backup_on_memory (env : DbEnv) (m : Memory) : RResult (List Nat) :=
  (db_backup_on_memory_run env m).1

/-- The stable64_read calls db_backup_on_memory issues. -/
def db_backup_calls (env : DbEnv) (m : Memory) : List (Nat × Nat) :=
  (db_backup_on_memory_run env m).2

/-- Embedding of backup::stream_db_backup, instrumented with the list of
stable64_read calls issued. The source unwraps the connection lock, the
transaction begin, the page count query and the commit (traps), but
propagates an Err from a page read with the question-mark operator; the
returned io::Cursor is modelled by the byte sequence it reads out,
namely the underlying buffer. -/
def stream_db_backup_run (env : DbEnv) (m : Memory) :
    RResult (List Nat) × List (Nat × Nat) :=
  if env.lockOk then
    if env.beginOk then
      if env.queryOk then
        match backupLoopStream m (pagesList env.pageCount) [] with
        | (.ok buf, calls) =>
            (if env.commitOk then .ok buf else .trap, calls)
        | (.ioError, calls) => (.ioError, calls)
        | (.trap, calls) => (.trap, calls)
      else (.trap, [])
    else (.trap, [])
  else (.trap, [])

/-- The byte sequence readable from the cursor stream_db_backup returns. -/
def stream_db_backup (env : DbEnv) (m : Memory) : RResult (List Nat) :=
  (stream_db_backup_run env m).1

/-- The stable64_read calls stream_db_backup issues. -/
def stream_backup_calls (env : DbEnv) (m : Memory) : List (Nat × Nat) :=
  (stream_db_backup_run env m).2

/-- Success condition of one page read: when the region is nonempty, the
header-adjusted offset range must lie inside the addressable region. -/
def pageOk (m : Memory) (pn : Int) (ps : Nat) : Prop :=
  0 < m.sizePages → (vfsOffset pn ps + 8) % U64 + ps ≤ sizeBytes m

instance (m : Memory) (pn : Int) (ps : Nat) : Decidable (pageOk m pn ps) := by
  unfold pageOk
  infer_instance

/-- The buffer a successful page read produces: the stable-memory slice
at the header-adjusted offset, or all zeros when the region is empty. -/
def pageOut (m : Memory) (pn : Int) (ps : Nat) : List Nat :=
  if 0 < m.sizePages then memSlice m ((vfsOffset pn ps + 8) % U64) ps
  else List.replicate ps 0

/-- State-threading form of stable64_read: the IC API only copies bytes
out of stable memory and never writes to it, so the threaded region
state is returned unchanged. Threading it makes the claim that the
backup mutates neither the database nor the storage region statable. -/
def stable64_read_st (m : Memory) (offset len : Nat) :
    RResult (List Nat) × Memory :=
  (stable64_read m offset len, m)

/-- State-threading form of utils::read. -/
def read_st (m : Memory) (buf : List Nat) (offset : Nat) :
    RResult (List Nat) × Memory :=
  if 0 < m.sizePages then
    stable64_read_st m ((offset + 8) % U64) buf.length
  else
    (.ok buf, m)

/-- State-threading form of read_page_from_vfs. -/
def read_page_from_vfs_st (m : Memory) (pn : Int) (ps : Nat) :
    RResult (List Nat) × Memory :=
  read_st m (List.replicate ps 0) (vfsOffset pn ps)

/-- State-threading form of the db_backup_on_memory page loop. -/
def backupLoopMemSt : List Int → List Nat → Memory → RResult (List Nat) × Memory
  | [], acc, m => (.ok acc, m)
  | pn :: rest, acc, m =>
    match read_page_from_vfs_st m pn PAGE_SIZE with
    | (.ok pd, m1) => backupLoopMemSt rest (acc ++ pd) m1
    | (.ioError, m1) => (.trap, m1)
    | (.trap, m1) => (.trap, m1)

/-- State-threading form of db_backup_on_memory, returning the database
environment and the stable region alongside the result. The backup
transaction issues only the PRAGMA page_count query and a commit and no
write statement, so the database environment (including the page count
the next query returns) comes back unchanged; the stable region is
threaded through every page read. -/
def db_backup_on_memory_st (env : DbEnv) (m : Memory) :
    RResult (List Nat) × DbEnv × Memory :=
  if env.lockOk then
    if env.beginOk then
      if env.queryOk then
        match backupLoopMemSt (pagesList env.pageCount) [] m with
        | (.ok buf, m1) => (if env.commitOk then .ok buf else .trap, env, m1)
        | (.ioError, m1) => (.trap, env, m1)
        | (.trap, m1) => (.trap, env, m1)
      else (.trap, env, m)
    else (.trap, env, m)
  else (.trap, env, m)

/-- An uninitialized stable region: stable64_size reports 0. -/
def memZero : Memory := ⟨0, fun _ => 0⟩

/-- A one-wasm-page (64 KiB) stable region holding only zero bytes. -/
def memOne : Memory := ⟨1, fun _ => 0⟩

/-- A one-wasm-page stable region holding the byte 0xAB = 171 at
absolute offsets 8 to 4103 and zeros elsewhere. -/
def memAB : Memory := ⟨1, fun o => if 8 ≤ o ∧ o < 4104 then 171 else 0⟩

/-- A database environment in which every step succeeds and the
PRAGMA page_count query returns pc. -/
def envOk (pc : Int) : DbEnv := ⟨true, true, true, true, pc⟩

/-- A database environment in which beginning the transaction fails. -/
def envBeginFail : DbEnv := ⟨true, false, true, true, 1⟩

theorem memSlice_length (m : Memory) (o l : Nat) : (memSlice m o l).length = l := by
  simp [memSlice]

theorem pageOut_length (m : Memory) (pn : Int) (ps : Nat) :
    (pageOut m pn ps).length = ps := by
  unfold pageOut
  split <;> simp [memSlice_length]

theorem read_ne_ioError (m : Memory) (buf : List Nat) (off : Nat) :
    read m buf off ≠ RResult.ioError := by
  unfold read stable64_read
  split
  · split <;> simp
  · simp

theorem read_page_ne_ioError (m : Memory) (pn : Int) (ps : Nat) :
    read_page_from_vfs m pn ps ≠ RResult.ioError := by
  unfold read_page_from_vfs
  exact read_ne_ioError m _ _

theorem read_page_eq_ok (m : Memory) (pn : Int) (ps : Nat) (h : pageOk m pn ps) :
    read_page_from_vfs m pn ps = RResult.ok (pageOut m pn ps) := by
  unfold read_page_from_vfs read stable64_read pageOut
  by_cases hs : 0 < m.sizePages
  · simp only [hs, if_true, List.length_replicate]
    rw [if_pos (h hs)]
  · simp [hs]

theorem read_page_eq_trap (m : Memory) (pn : Int) (ps : Nat)
    (h : ¬ pageOk m pn ps) : read_page_from_vfs m pn ps = RResult.trap := by
  unfold pageOk at h
  push_neg at h
  obtain ⟨hs, hr⟩ := h
  unfold read_page_from_vfs read stable64_read
  simp only [hs, if_true, List.length_replicate]
  rw [if_neg (by omega)]

theorem read_page_ok_iff (m : Memory) (pn : Int) (ps : Nat) (out : List Nat) :
    read_page_from_vfs m pn ps = RResult.ok out ↔
      pageOk m pn ps ∧ out = pageOut m pn ps := by
  constructor
  · intro h
    by_cases hk : pageOk m pn ps
    · refine ⟨hk, ?_⟩
      rw [read_page_eq_ok m pn ps hk] at h
      exact (RResult.ok.inj h).symm
    · rw [read_page_eq_trap m pn ps hk] at h
      exact absurd h (by simp)
  · rintro ⟨hk, rfl⟩
    exact read_page_eq_ok m pn ps hk

theorem read_page_ok_length (m : Memory) (pn : Int) (ps : Nat) (out : List Nat)
    (h : read_page_from_vfs m pn ps = RResult.ok out) : out.length = ps := by
  obtain ⟨-, rfl⟩ := (read_page_ok_iff m pn ps out).1 h
  exact pageOut_length m pn ps

theorem loop_mem_ok_of (m : Memory) (pages : List Int) (acc : List Nat)
    (h : ∀ pn ∈ pages, pageOk m pn PAGE_SIZE) :
    backupLoopMem m pages acc =
      (RResult.ok (acc ++ (pages.map (fun pn => pageOut m pn PAGE_SIZE)).flatten),
       (pages.map (fun pn => readPageCalls m pn PAGE_SIZE)).flatten) := by
  induction pages generalizing acc with
  | nil => simp [backupLoopMem]
  | cons hd tl ih =>
    have hhd : pageOk m hd PAGE_SIZE := h hd (by simp)
    have htl : ∀ pn ∈ tl, pageOk m pn PAGE_SIZE := fun pn hpn => h pn (by simp [hpn])
    simp only [backupLoopMem, read_page_eq_ok m hd PAGE_SIZE hhd,
      ih (acc ++ pageOut m hd PAGE_SIZE) htl, List.map_cons, List.flatten_cons,
      List.append_assoc]

theorem loop_mem_ok_inv (m : Memory) (pages : List Int) (acc buf : List Nat)
    (calls : List (Nat × Nat))
    (h : backupLoopMem m pages acc = (RResult.ok buf, calls)) :
    ∀ pn ∈ pages, pageOk m pn PAGE_SIZE := by
  induction pages generalizing acc buf calls with
  | nil => simp
  | cons hd tl ih =>
    intro pn hpn
    by_cases hk : pageOk m hd PAGE_SIZE
    · rcases List.mem_cons.1 hpn with rfl | hmem
      · exact hk
      · rw [backupLoopMem, read_page_eq_ok m hd PAGE_SIZE hk] at h
        dsimp only at h
        rcases hp : backupLoopMem m tl (acc ++ pageOut m hd PAGE_SIZE) with ⟨r, cs⟩
        rw [hp] at h
        cases r with
        | ok b => exact ih _ b cs hp pn hmem
        | ioError => simp at h
        | trap => simp at h
    · rw [backupLoopMem, read_page_eq_trap m hd PAGE_SIZE hk] at h
      dsimp only at h
      simp at h

theorem loop_stream_eq_mem (m : Memory) (pages : List Int) (acc : List Nat) :
    backupLoopStream m pages acc = backupLoopMem m pages acc := by
  induction pages generalizing acc with
  | nil => rfl
  | cons hd tl ih =>
    rw [backupLoopStream, backupLoopMem]
    rcases hr : read_page_from_vfs m hd PAGE_SIZE with b | h | h
    · simp only [ih]
    · exact absurd hr (read_page_ne_ioError m hd PAGE_SIZE)
    · rfl

theorem loop_mem_ne_ioError (m : Memory) (pages : List Int) (acc : List Nat) :
    (backupLoopMem m pages acc).1 ≠ RResult.ioError := by
  induction pages generalizing acc with
  | nil => simp [backupLoopMem]
  | cons hd tl ih =>
    rw [backupLoopMem]
    rcases hr : read_page_from_vfs m hd PAGE_SIZE with b | h | h <;> simp [ih]

theorem run_stream_eq_mem (env : DbEnv) (m : Memory) :
    stream_db_backup_run env m = db_backup_on_memory_run env m := by
  unfold stream_db_backup_run db_backup_on_memory_run
  rcases env with ⟨lk, bg, qr, cm, pc⟩
  cases lk; · rfl
  cases bg; · rfl
  cases qr; · rfl
  simp only [if_true]
  rw [loop_stream_eq_mem]
  rcases hp : backupLoopMem m (pagesList pc) [] with ⟨r, cs⟩
  cases r with
  | ok b => rfl
  | ioError =>
    have hne : (backupLoopMem m (pagesList pc) []).1 = RResult.ioError := by rw [hp]
    exact absurd hne (loop_mem_ne_ioError m (pagesList pc) [])
  | trap => rfl

theorem stream_eq_mem_val (env : DbEnv) (m : Memory) :
    stream_db_backup env m = db_backup_on_memory env m := by
  unfold stream_db_backup db_backup_on_memory
  rw [run_stream_eq_mem]

theorem stream_calls_eq_mem (env : DbEnv) (m : Memory) :
    stream_backup_calls env m = db_backup_calls env m := by
  unfold stream_backup_calls db_backup_calls
  rw [run_stream_eq_mem]

theorem pagesList_length (pc : Int) : (pagesList pc).length = pc.toNat := by
  unfold pagesList
  rw [List.length_map, List.length_range]

theorem pagesList_mem (pc pn : Int) : pn ∈ pagesList pc ↔ 1 ≤ pn ∧ pn ≤ pc := by
  unfold pagesList
  rw [List.mem_map]
  constructor
  · rintro ⟨i, hi, he⟩
    rw [List.mem_range] at hi
    omega
  · rintro ⟨h1, h2⟩
    refine ⟨(pn - 1).toNat, ?_, ?_⟩
    · rw [List.mem_range]
      omega
    · omega

theorem pagesList_get (pc : Int) (j : Nat) (hj : j < (pagesList pc).length) :
    (pagesList pc).get ⟨j, hj⟩ = (j : Int) + 1 := by
  unfold pagesList at hj ⊢
  rw [List.get_eq_getElem, List.getElem_map, List.getElem_range]

theorem flatten_map_length_const (f : Int → List Nat) (k : Nat) (l : List Int)
    (h : ∀ x ∈ l, (f x).length = k) :
    ((l.map f).flatten).length = l.length * k := by
  induction l with
  | nil => simp
  | cons hd tl ih =>
    have h1 : (f hd).length = k := h hd (by simp)
    have h2 := ih (fun x hx => h x (by simp [hx]))
    simp only [List.map_cons, List.flatten_cons, List.length_append, h1, h2,
      List.length_cons]
    ring

theorem flatten_map_slice (f : Int → List Nat) (k : Nat) (l : List Int)
    (j : Nat) (hj : j < l.length) (h : ∀ x ∈ l, (f x).length = k) :
    (((l.map f).flatten).drop (j * k)).take k = f (l.get ⟨j, hj⟩) := by
  induction l generalizing j with
  | nil => simp at hj
  | cons hd tl ih =>
    have h1 : (f hd).length = k := h hd (by simp)
    cases j with
    | zero =>
      simp only [List.map_cons, List.flatten_cons, Nat.zero_mul, List.drop_zero,
        List.get]
      rw [← h1, List.take_left]
    | succ n =>
      have hstep : (n + 1) * k = (f hd).length + n * k := by rw [h1]; ring
      simp only [List.map_cons, List.flatten_cons, hstep, List.drop_append,
        List.get_cons_succ]
      exact ih n (by simpa using hj) (fun x hx => h x (by simp [hx]))

theorem run_mem_ok_iff (env : DbEnv) (m : Memory) (buf : List Nat) :
    db_backup_on_memory env m = RResult.ok buf ↔
      env.lockOk = true ∧ env.beginOk = true ∧ env.queryOk = true ∧
      env.commitOk = true ∧
      (∀ pn ∈ pagesList env.pageCount, pageOk m pn PAGE_SIZE) ∧
      buf = ((pagesList env.pageCount).map (fun pn => pageOut m pn PAGE_SIZE)).flatten := by
  rcases env with ⟨lk, bg, qr, cm, pc⟩
  unfold db_backup_on_memory db_backup_on_memory_run
  cases lk; · simp
  cases bg; · simp
  cases qr; · simp
  simp only
  rcases hp : backupLoopMem m (pagesList pc) [] with ⟨r, cs⟩
  cases r with
  | ok b =>
    have hall := loop_mem_ok_inv m (pagesList pc) [] b cs hp
    have heq := loop_mem_ok_of m (pagesList pc) [] hall
    rw [hp] at heq
    injection heq with e1 e2
    injection e1 with e1
    rw [List.nil_append] at e1
    cases cm
    · simp
    · simp only [e1, eq_comm]
      simp
      exact fun _ => hall
  | ioError =>
    simp only
    constructor
    · intro h
      simp at h
    · rintro ⟨-, -, -, -, hall, -⟩
      have heq := loop_mem_ok_of m (pagesList pc) [] hall
      rw [hp] at heq
      simp at heq
  | trap =>
    simp only
    constructor
    · intro h
      simp at h
    · rintro ⟨-, -, -, -, hall, -⟩
      have heq := loop_mem_ok_of m (pagesList pc) [] hall
      rw [hp] at heq
      simp at heq

theorem run_mem_calls_of_ok (env : DbEnv) (m : Memory) (buf : List Nat)
    (h : db_backup_on_memory env m = RResult.ok buf) :
    db_backup_calls env m =
      ((pagesList env.pageCount).map (fun pn => readPageCalls m pn PAGE_SIZE)).flatten := by
  rcases (run_mem_ok_iff env m buf).1 h with ⟨h1, h2, h3, h4, hall, -⟩
  unfold db_backup_calls db_backup_on_memory_run
  rw [h1, h2, h3, loop_mem_ok_of m (pagesList env.pageCount) [] hall]
  simp

theorem pagesList_zero : pagesList 0 = [] := rfl

theorem db_backup_calls_zero (env : DbEnv) (m : Memory)
    (h : env.pageCount = 0) : db_backup_calls env m = [] := by
  rcases env with ⟨lk, bg, qr, cm, pc⟩
  have hpc : pc = 0 := h
  subst hpc
  unfold db_backup_calls db_backup_on_memory_run
  cases lk <;> cases bg <;> cases qr <;> simp [backupLoopMem, pagesList_zero]

theorem read_page_st_eq (m : Memory) (pn : Int) (ps : Nat) :
    read_page_from_vfs_st m pn ps = (read_page_from_vfs m pn ps, m) := by
  unfold read_page_from_vfs_st read_st stable64_read_st read_page_from_vfs read
  split <;> rfl

theorem loopSt_eq (m : Memory) (pages : List Int) (acc : List Nat) :
    backupLoopMemSt pages acc m = ((backupLoopMem m pages acc).1, m) := by
  induction pages generalizing acc with
  | nil => rfl
  | cons hd tl ih =>
    rw [backupLoopMemSt, backupLoopMem, read_page_st_eq]
    rcases hr : read_page_from_vfs m hd PAGE_SIZE with pd | _ | _ <;> dsimp only
    exact ih (acc ++ pd)

theorem db_backup_st_eq (env : DbEnv) (m : Memory) :
    db_backup_on_memory_st env m = (db_backup_on_memory env m, env, m) := by
  rcases env with ⟨lk, bg, qr, cm, pc⟩
  unfold db_backup_on_memory_st db_backup_on_memory db_backup_on_memory_run
  cases lk; · rfl
  cases bg; · rfl
  cases qr; · rfl
  simp only [loopSt_eq]
  rcases hp : backupLoopMem m (pagesList pc) [] with ⟨r, cs⟩
  cases r <;> rfl

theorem memSlice_eq_replicate (m : Memory) (c off len : Nat)
    (h : ∀ i, i < len → m.data (off + i) = c) :
    memSlice m off len = List.replicate len c := by
  rw [List.eq_replicate_iff]
  refine ⟨memSlice_length m off len, ?_⟩
  intro b hb
  rcases List.mem_map.1 hb with ⟨i, hi, rfl⟩
  exact h i (List.mem_range.1 hi)

theorem flatten_replicate (n k c : Nat) :
    (List.replicate n (List.replicate k c)).flatten = List.replicate (n * k) c := by
  induction n with
  | zero => simp
  | succ p ih =>
    rw [List.replicate_succ, List.flatten_cons, ih,
      show (p + 1) * k = k + p * k by ring, List.replicate_add]

theorem pageOut_memOne : pageOut memOne 1 PAGE_SIZE = List.replicate 4096 0 := by
  unfold pageOut
  rw [if_pos (by decide : 0 < memOne.sizePages)]
  exact memSlice_eq_replicate memOne 0 _ _ (fun i _ => rfl)

theorem read_page_memOne :
    read_page_from_vfs memOne 1 4096 = RResult.ok (List.replicate 4096 0) := by
  rw [read_page_eq_ok memOne 1 4096 (by decide)]
  exact congrArg RResult.ok pageOut_memOne

theorem db_backup_memOne :
    db_backup_on_memory (envOk 1) memOne = RResult.ok (List.replicate 4096 0) := by
  apply (run_mem_ok_iff (envOk 1) memOne (List.replicate 4096 0)).2
  refine ⟨rfl, rfl, rfl, rfl, ?_, ?_⟩
  · intro pn hpn
    have h1 : pn = 1 := by
      have := (pagesList_mem 1 pn).1 hpn
      omega
    subst h1
    decide
  · have hp : pagesList (envOk 1).pageCount = [1] := by decide
    rw [hp]
    simp only [List.map_cons, List.map_nil, List.flatten_cons, List.flatten_nil,
      List.append_nil]
    exact pageOut_memOne.symm

/-- C1: for every page count of at least 0 returned by the PRAGMA
page_count query, both backup entry points produce a buffer of exactly
page_count * 4096 bytes whenever they return one, and when the page
count is 0 the buffer is empty and zero stable-memory reads are
issued. -/
theorem C1_backup_length (env : DbEnv) (m : Memory) (buf buf2 : List Nat)
    (_hpc : 0 ≤ env.pageCount) :
    (db_backup_on_memory env m = RResult.ok buf →
       buf.length = env.pageCount.toNat * PAGE_SIZE)
    ∧ (stream_db_backup env m = RResult.ok buf2 →
       buf2.length = env.pageCount.toNat * PAGE_SIZE)
    ∧ (env.pageCount = 0 →
       db_backup_calls env m = [] ∧ stream_backup_calls env m = []
       ∧ (db_backup_on_memory env m = RResult.ok buf → buf = [])
       ∧ (stream_db_backup env m = RResult.ok buf2 → buf2 = [])) := by
  have hlen : ∀ b, db_backup_on_memory env m = RResult.ok b →
      b.length = env.pageCount.toNat * PAGE_SIZE := by
    intro b hb
    rcases (run_mem_ok_iff env m b).1 hb with ⟨-, -, -, -, hall, rfl⟩
    rw [flatten_map_length_const _ PAGE_SIZE _
      (fun pn _ => pageOut_length m pn PAGE_SIZE), pagesList_length]
  have hnil : ∀ b, env.pageCount = 0 →
      db_backup_on_memory env m = RResult.ok b → b = [] := by
    intro b h0 hb
    rcases (run_mem_ok_iff env m b).1 hb with ⟨-, -, -, -, -, rfl⟩
    rw [h0, pagesList_zero]
    rfl
  refine ⟨hlen buf, ?_, fun h0 => ⟨db_backup_calls_zero env m h0, ?_, hnil buf h0, ?_⟩⟩
  · intro hb
    rw [stream_eq_mem_val] at hb
    exact hlen buf2 hb
  · rw [stream_calls_eq_mem]
    exact db_backup_calls_zero env m h0
  · intro hb
    rw [stream_eq_mem_val] at hb
    exact hnil buf2 h0 hb

theorem C1_backup_length_witness :
    (0 : Int) ≤ (envOk 1).pageCount
    ∧ db_backup_on_memory (envOk 1) memOne = RResult.ok (List.replicate 4096 0)
    ∧ (List.replicate 4096 0).length = (envOk 1).pageCount.toNat * PAGE_SIZE := by
  have h := C1_backup_length (envOk 1) memOne (List.replicate 4096 0)
    (List.replicate 4096 0) (by decide)
  exact ⟨by decide, db_backup_memOne, h.1 db_backup_memOne⟩

/-- C3: if the storage backend reports a total region size of zero,
every page read returns 4096 zero bytes without issuing a real
stable-memory read, and any buffer the backup returns is
page_count * 4096 zero bytes, with no stable-memory reads issued. -/
theorem C3_zero_region (m : Memory) (env : DbEnv) (pn : Int) (ps : Nat)
    (buf : List Nat) (hz : m.sizePages = 0) :
    read_page_from_vfs m pn ps = RResult.ok (List.replicate ps 0)
    ∧ readPageCalls m pn ps = []
    ∧ (db_backup_on_memory env m = RResult.ok buf →
       buf = List.replicate (env.pageCount.toNat * PAGE_SIZE) 0)
    ∧ db_backup_calls env m = [] := by
  have hns : ¬ 0 < m.sizePages := by omega
  have hpage : ∀ q : Int, read_page_from_vfs m q ps = RResult.ok (List.replicate ps 0) := by
    intro q
    unfold read_page_from_vfs read
    rw [if_neg hns]
  have hout : ∀ q : Int, pageOut m q PAGE_SIZE = List.replicate PAGE_SIZE 0 := by
    intro q
    unfold pageOut
    rw [if_neg hns]
  refine ⟨hpage pn, ?_, ?_, ?_⟩
  · unfold readPageCalls readCalls
    rw [if_neg hns]
  · intro hb
    rcases (run_mem_ok_iff env m buf).1 hb with ⟨-, -, -, -, -, rfl⟩
    have hrep : (pagesList env.pageCount).map (fun q => pageOut m q PAGE_SIZE) =
        List.replicate env.pageCount.toNat (List.replicate PAGE_SIZE 0) := by
      rw [List.eq_replicate_iff]
      refine ⟨by rw [List.length_map, pagesList_length], ?_⟩
      intro b hb2
      rcases List.mem_map.1 hb2 with ⟨q, -, rfl⟩
      exact hout q
    rw [hrep, flatten_replicate]
  · rcases hc : db_backup_on_memory env m with b | _ | _
    · rcases (run_mem_ok_iff env m b).1 hc with ⟨h1, h2, h3, -, hall, -⟩
      rw [run_mem_calls_of_ok env m b hc]
      rw [List.eq_nil_iff_forall_not_mem]
      intro x hx
      rcases List.mem_flatten.1 hx with ⟨l, hl, hxl⟩
      rcases List.mem_map.1 hl with ⟨q, -, rfl⟩
      revert hxl
      unfold readPageCalls readCalls
      rw [if_neg hns]
      simp
    · exact absurd hc (by
        unfold db_backup_on_memory
        have := loop_mem_ne_ioError m (pagesList env.pageCount) []
        unfold db_backup_on_memory_run
        rcases env with ⟨lk, bg, qr, cm, pc⟩
        cases lk; · simp
        cases bg; · simp
        cases qr; · simp
        rcases hp : backupLoopMem m (pagesList pc) [] with ⟨r, cs⟩
        cases r with
        | ok b => cases cm <;> simp
        | ioError => simp
        | trap => simp)
    · -- trap result: calls may be nonempty in general, but not with a zero
      -- region: every page read succeeds, so the loop cannot trap, and the
      -- non-loop failures issue no calls.
      unfold db_backup_calls db_backup_on_memory_run
      rcases env with ⟨lk, bg, qr, cm, pc⟩
      cases lk; · simp
      cases bg; · simp
      cases qr; · simp
      have hall : ∀ q ∈ pagesList pc, pageOk m q PAGE_SIZE := by
        intro q _
        intro hpos
        exact absurd hpos hns
      rw [loop_mem_ok_of m (pagesList pc) [] hall]
      have hcalls : ∀ q ∈ pagesList pc, readPageCalls m q PAGE_SIZE = [] := by
        intro q _
        unfold readPageCalls readCalls
        rw [if_neg hns]
      simp only
      rw [List.eq_nil_iff_forall_not_mem]
      intro x hx
      rcases List.mem_flatten.1 hx with ⟨l, hl, hxl⟩
      rcases List.mem_map.1 hl with ⟨q, hq, rfl⟩
      rw [hcalls q hq] at hxl
      exact absurd hxl (List.not_mem_nil x)

theorem C3_zero_region_witness :
    memZero.sizePages = 0
    ∧ read_page_from_vfs memZero 1 4096 = RResult.ok (List.replicate 4096 0)
    ∧ (db_backup_on_memory (envOk 2) memZero =
        RResult.ok (List.replicate (2 * 4096) 0)
       → List.replicate (2 * 4096) 0 =
          List.replicate ((envOk 2).pageCount.toNat * PAGE_SIZE) 0) := by
  have h := C3_zero_region memZero (envOk 2) 1 4096
    (List.replicate (2 * 4096) 0) rfl
  exact ⟨rfl, h.1, h.2.2.1⟩

/-- C6: for the same database and storage state, the byte sequence
readable from the cursor stream_db_backup returns is identical to the
vector db_backup_on_memory returns, including agreement of the failure
outcome. -/
theorem C6_stream_eq_memory (env : DbEnv) (m : Memory) :
    stream_db_backup env m = db_backup_on_memory env m := by
  unfold stream_db_backup db_backup_on_memory
  rw [run_stream_eq_mem]

/-- C7: the backup operation is deterministic in the state it reads and
mutates neither the database environment nor the stable region: running
the state-threaded backup and then running it again on the state the
first run returns yields byte-identical outcomes, and the threaded
state is returned unchanged. -/
theorem C7_idempotent (env : DbEnv) (m : Memory) :
    (db_backup_on_memory_st env m).1 = db_backup_on_memory env m
    ∧ (db_backup_on_memory_st env m).2 = (env, m)
    ∧ (db_backup_on_memory_st ((db_backup_on_memory_st env m).2.1)
        ((db_backup_on_memory_st env m).2.2)).1 =
      (db_backup_on_memory_st env m).1 := by
  rw [db_backup_st_eq]
  dsimp only
  rw [db_backup_st_eq]
  exact ⟨rfl, rfl, rfl⟩

/-- C8: whenever read_page_from_vfs returns Ok, the returned buffer has
length exactly the requested page size; no partial read is exposed. -/
theorem C8_full_read (m : Memory) (pn : Int) (ps : Nat) (out : List Nat)
    (h : read_page_from_vfs m pn ps = RResult.ok out) : out.length = ps :=
  read_page_ok_length m pn ps out h

theorem C8_full_read_witness :
    read_page_from_vfs memOne 1 4096 = RResult.ok (List.replicate 4096 0)
    ∧ (List.replicate 4096 0).length = 4096 := by
  exact ⟨read_page_memOne,
    C8_full_read memOne 1 4096 (List.replicate 4096 0) read_page_memOne⟩

theorem flatten_map_singleton (f : Int → Nat × Nat) (l : List Int) :
    (l.map (fun x => [f x])).flatten = l.map f := by
  induction l with
  | nil => rfl
  | cons hd tl ih => simp [ih]

/-- C2: with a nonempty region and page offsets that fit in u64, a
successful backup issues exactly one stable-memory read per page, of
length 4096, at absolute offset (i - 1) * 4096 + 8 for page i, in
ascending page order with no skips or reordering; the output bytes at
buffer offset (i - 1) * 4096 up to i * 4096 are exactly the bytes that
page read returned; and for page count 3 the reads are at absolute
offsets 8, 4104 and 8200 in that order. -/
theorem C2_page_reads (env : DbEnv) (m : Memory) (buf : List Nat)
    (hsz : 0 < m.sizePages)
    (hbound : env.pageCount * (PAGE_SIZE : Int) + 8 ≤ (U64 : Int))
    (hok : db_backup_on_memory env m = RResult.ok buf) :
    db_backup_calls env m =
      (pagesList env.pageCount).map
        (fun pn => ((((pn - 1) * (PAGE_SIZE : Int)).toNat + 8), PAGE_SIZE))
    ∧ (∀ i : Nat, 1 ≤ i → (i : Int) ≤ env.pageCount →
        ∃ b, read_page_from_vfs m (i : Int) PAGE_SIZE = RResult.ok b ∧
          (buf.drop ((i - 1) * PAGE_SIZE)).take PAGE_SIZE = b)
    ∧ (env.pageCount = 3 →
        db_backup_calls env m = [(8, 4096), (4104, 4096), (8200, 4096)]) := by
  obtain ⟨-, -, -, -, hall, hbuf⟩ := (run_mem_ok_iff env m buf).1 hok
  have hofs : ∀ pn : Int, 1 ≤ pn → pn ≤ env.pageCount →
      (vfsOffset pn PAGE_SIZE + 8) % U64 =
        ((pn - 1) * (PAGE_SIZE : Int)).toNat + 8 := by
    intro pn h1 h2
    have hps0 : (0 : Int) < (PAGE_SIZE : Int) := by norm_num [PAGE_SIZE]
    have hA : (pn - 1) * (PAGE_SIZE : Int) + PAGE_SIZE ≤
        env.pageCount * (PAGE_SIZE : Int) := by
      have hm := mul_le_mul_of_nonneg_right h2 (le_of_lt hps0)
      calc (pn - 1) * (PAGE_SIZE : Int) + PAGE_SIZE
          = pn * (PAGE_SIZE : Int) := by ring
        _ ≤ env.pageCount * (PAGE_SIZE : Int) := hm
    have hnn : 0 ≤ (pn - 1) * (PAGE_SIZE : Int) :=
      mul_nonneg (by omega) (le_of_lt hps0)
    have h8 : (pn - 1) * (PAGE_SIZE : Int) + 8 < (U64 : Int) := by linarith
    have e1 : vfsOffset pn PAGE_SIZE = ((pn - 1) * (PAGE_SIZE : Int)).toNat := by
      unfold vfsOffset
      rw [Int.emod_eq_of_lt hnn (by linarith)]
    rw [e1]
    apply Nat.mod_eq_of_lt
    zify
    rw [Int.toNat_of_nonneg hnn]
    exact h8
  have hcalls : db_backup_calls env m =
      (pagesList env.pageCount).map
        (fun pn => ((((pn - 1) * (PAGE_SIZE : Int)).toNat + 8), PAGE_SIZE)) := by
    rw [run_mem_calls_of_ok env m buf hok]
    have hmap : (pagesList env.pageCount).map (fun pn => readPageCalls m pn PAGE_SIZE) =
        (pagesList env.pageCount).map
          (fun pn => [((((pn - 1) * (PAGE_SIZE : Int)).toNat + 8), PAGE_SIZE)]) := by
      apply List.map_congr_left
      intro pn hpn
      rcases (pagesList_mem _ pn).1 hpn with ⟨h1, h2⟩
      unfold readPageCalls readCalls
      rw [if_pos hsz, hofs pn h1 h2]
    rw [hmap, flatten_map_singleton]
  refine ⟨hcalls, ?_, ?_⟩
  · intro i h1 h2
    have hmem : ((i : Nat) : Int) ∈ pagesList env.pageCount :=
      (pagesList_mem _ _).2 ⟨by omega, h2⟩
    refine ⟨pageOut m (i : Int) PAGE_SIZE,
      read_page_eq_ok m _ _ (hall _ hmem), ?_⟩
    have hj : i - 1 < (pagesList env.pageCount).length := by
      rw [pagesList_length]
      omega
    rw [hbuf, flatten_map_slice (fun pn => pageOut m pn PAGE_SIZE) PAGE_SIZE
      (pagesList env.pageCount) (i - 1) hj
      (fun x _ => pageOut_length m x PAGE_SIZE), pagesList_get]
    have hcast : ((i - 1 : Nat) : Int) + 1 = (i : Int) := by omega
    rw [hcast]
  · intro h3
    rw [hcalls, h3]
    decide

theorem db_backup_memOne3 :
    db_backup_on_memory (envOk 3) memOne = RResult.ok (List.replicate 12288 0) := by
  apply (run_mem_ok_iff (envOk 3) memOne (List.replicate 12288 0)).2
  refine ⟨rfl, rfl, rfl, rfl, ?_, ?_⟩
  · intro pn hpn
    have hr := (pagesList_mem 3 pn).1 hpn
    have h1 : pn = 1 ∨ pn = 2 ∨ pn = 3 := by omega
    rcases h1 with rfl | rfl | rfl <;> decide
  · have hp : pagesList (envOk 3).pageCount = [1, 2, 3] := by decide
    rw [hp]
    simp only [List.map_cons, List.map_nil, List.flatten_cons, List.flatten_nil,
      List.append_nil]
    have h1 : ∀ pn : Int, pageOut memOne pn PAGE_SIZE = List.replicate 4096 0 := by
      intro pn
      unfold pageOut
      rw [if_pos (by decide : 0 < memOne.sizePages)]
      exact memSlice_eq_replicate memOne 0 _ _ (fun i _ => rfl)
    rw [h1, h1, h1, ← List.replicate_add, ← List.replicate_add]

theorem C2_page_reads_witness :
    0 < memOne.sizePages
    ∧ (envOk 3).pageCount * (PAGE_SIZE : Int) + 8 ≤ (U64 : Int)
    ∧ db_backup_on_memory (envOk 3) memOne = RResult.ok (List.replicate 12288 0)
    ∧ db_backup_calls (envOk 3) memOne = [(8, 4096), (4104, 4096), (8200, 4096)] := by
  have h := C2_page_reads (envOk 3) memOne (List.replicate 12288 0)
    (by decide) (by decide) db_backup_memOne3
  exact ⟨by decide, by decide, db_backup_memOne3, h.2.2 rfl⟩

/-- C4 counterexample: the claim that the storage reader returns an Err
result when the copy cannot complete is false. At a concrete input
whose header-adjusted range exceeds the one-wasm-page region the read
traps, and no input at all makes read or read_page_from_vfs return an
I/O error result, because utils::read returns Ok on every path and an
out-of-range stable64_read aborts instead of returning. -/
theorem C4_never_ioError :
    read memOne (List.replicate 8 0) 70000 = RResult.trap
    ∧ (∀ (m : Memory) (buf : List Nat) (off : Nat),
        read m buf off ≠ RResult.ioError)
    ∧ (∀ (m : Memory) (pn : Int) (ps : Nat),
        read_page_from_vfs m pn ps ≠ RResult.ioError) :=
  ⟨by decide, read_ne_ioError, read_page_ne_ioError⟩

/-- C4 amended: when the region is nonempty and the header-adjusted
offset range exceeds the addressable region, utils::read aborts the
calling context (the embedded stable64_read traps) rather than
returning an Err; the reader never produces an I/O error result. -/
theorem C4_trap_on_out_of_range (m : Memory) (buf : List Nat) (off : Nat)
    (hsz : 0 < m.sizePages)
    (hrange : sizeBytes m < (off + 8) % U64 + buf.length) :
    read m buf off = RResult.trap := by
  unfold read stable64_read
  rw [if_pos hsz, if_neg (by omega)]

theorem C4_trap_on_out_of_range_witness :
    0 < memOne.sizePages
    ∧ sizeBytes memOne < (70000 + 8) % U64 + (List.replicate 8 0).length
    ∧ read memOne (List.replicate 8 0) 70000 = RResult.trap :=
  ⟨by decide, by decide,
    C4_trap_on_out_of_range memOne (List.replicate 8 0) 70000 (by decide) (by decide)⟩

theorem db_backup_trap_of_flags (env : DbEnv) (m : Memory)
    (h : env.lockOk = false ∨ env.beginOk = false ∨ env.queryOk = false) :
    db_backup_on_memory env m = RResult.trap := by
  rcases env with ⟨lk, bg, qr, cm, pc⟩
  dsimp only at h
  unfold db_backup_on_memory db_backup_on_memory_run
  rcases h with rfl | rfl | rfl
  · rfl
  · cases lk <;> rfl
  · cases lk <;> cases bg <;> rfl

theorem db_backup_trap_of_commit (env : DbEnv) (m : Memory) (buf : List Nat)
    (calls : List (Nat × Nat))
    (hl : backupLoopMem m (pagesList env.pageCount) [] = (RResult.ok buf, calls))
    (hc : env.commitOk = false) :
    db_backup_on_memory env m = RResult.trap := by
  rcases env with ⟨lk, bg, qr, cm, pc⟩
  dsimp only at hl hc
  subst hc
  unfold db_backup_on_memory db_backup_on_memory_run
  cases lk; · rfl
  cases bg; · rfl
  cases qr; · rfl
  rw [hl]
  rfl

theorem db_backup_ne_ioError (env : DbEnv) (m : Memory) :
    db_backup_on_memory env m ≠ RResult.ioError := by
  unfold db_backup_on_memory db_backup_on_memory_run
  rcases env with ⟨lk, bg, qr, cm, pc⟩
  cases lk; · simp
  cases bg; · simp
  cases qr; · simp
  rcases hp : backupLoopMem m (pagesList pc) [] with ⟨r, cs⟩
  cases r with
  | ok b => cases cm <;> simp
  | ioError => simp
  | trap => simp

/-- C5 counterexample: the claim that stream_db_backup surfaces every
failure of connection acquisition, transaction begin, page-count query
or commit as a recoverable Err result is false: when beginning the
transaction fails, stream_db_backup traps (the source unwraps the
begin), and a trap is not an Err result. -/
theorem C5_begin_fail_traps :
    stream_db_backup envBeginFail memOne = RResult.trap
    ∧ RResult.trap ≠ (RResult.ioError : RResult (List Nat)) :=
  ⟨rfl, by decide⟩

/-- C5 amended: both entry points abort the calling context on
connection-acquisition, transaction-begin, page-count-query and commit
failures (the source unwraps all of them in both functions);
stream_db_backup propagates only a page-read Err, a case that cannot
arise because the page reader never returns Err, so stream_db_backup
never returns an Err either; and no partial buffer is returned: any
buffer either entry point returns is exactly page_count * 4096 bytes. -/
theorem C5_failure_visibility (env : DbEnv) (m : Memory) :
    ((env.lockOk = false ∨ env.beginOk = false ∨ env.queryOk = false) →
      stream_db_backup env m = RResult.trap
      ∧ db_backup_on_memory env m = RResult.trap)
    ∧ (∀ buf calls,
        backupLoopMem m (pagesList env.pageCount) [] = (RResult.ok buf, calls) →
        env.commitOk = false →
        stream_db_backup env m = RResult.trap
        ∧ db_backup_on_memory env m = RResult.trap)
    ∧ stream_db_backup env m ≠ RResult.ioError
    ∧ (∀ buf, stream_db_backup env m = RResult.ok buf →
        buf.length = env.pageCount.toNat * PAGE_SIZE) := by
  refine ⟨fun h => ?_, fun buf calls hl hc => ?_, ?_, fun buf hb => ?_⟩
  · have ht := db_backup_trap_of_flags env m h
    exact ⟨by rw [stream_eq_mem_val, ht], ht⟩
  · have ht := db_backup_trap_of_commit env m buf calls hl hc
    exact ⟨by rw [stream_eq_mem_val, ht], ht⟩
  · rw [stream_eq_mem_val]
    exact db_backup_ne_ioError env m
  · rw [stream_eq_mem_val] at hb
    rcases (run_mem_ok_iff env m buf).1 hb with ⟨-, -, -, -, -, rfl⟩
    rw [flatten_map_length_const _ PAGE_SIZE _
      (fun pn _ => pageOut_length m pn PAGE_SIZE), pagesList_length]

theorem C5_failure_visibility_witness :
    stream_db_backup envBeginFail memZero = RResult.trap
    ∧ db_backup_on_memory envBeginFail memZero = RResult.trap :=
  (C5_failure_visibility envBeginFail memZero).1 (Or.inr (Or.inl rfl))

/-- C9: with page count 1 and a one-wasm-page region holding the byte
0xAB = 171 at absolute offsets 8 through 4103, the backup returns a
4096-byte buffer every byte of which is 0xAB. -/
theorem C9_backup_AB :
    db_backup_on_memory (envOk 1) memAB = RResult.ok (List.replicate 4096 171) := by
  apply (run_mem_ok_iff (envOk 1) memAB (List.replicate 4096 171)).2
  refine ⟨rfl, rfl, rfl, rfl, ?_, ?_⟩
  · intro pn hpn
    have h1 : pn = 1 := by
      have := (pagesList_mem 1 pn).1 hpn
      omega
    subst h1
    decide
  · have hp : pagesList (envOk 1).pageCount = [1] := by decide
    rw [hp]
    simp only [List.map_cons, List.map_nil, List.flatten_cons, List.flatten_nil,
      List.append_nil]
    symm
    unfold pageOut
    rw [if_pos (by decide : 0 < memAB.sizePages)]
    rw [show (vfsOffset 1 PAGE_SIZE + 8) % U64 = 8 from by decide]
    apply memSlice_eq_replicate memAB 171 8 PAGE_SIZE
    intro i hi
    show memAB.data (8 + i) = 171
    unfold memAB
    dsimp only
    rw [if_pos ?_]
    constructor
    · omega
    · have hps : PAGE_SIZE = 4096 := rfl
      omega

/-- C10: read_page_from_vfs checks no precondition on page_number. For
every page_number at most 0 the signed offset (page_number - 1) *
page_size is negative and the as-u64 cast wraps modulo 2^64, so with a
nonempty region a stable-memory read is attempted at the wrapped
near-2^64 offset plus the 8-byte header instead of being rejected; in
particular page_number = 0 with page_size = 4096 yields wrapped offset
2^64 - 4096 and an attempted read at absolute offset 2^64 - 4096 + 8. -/
theorem C10_wraparound (pn : Int) (ps : Nat) (m : Memory)
    (hpn : pn ≤ 0) (hps : 0 < ps)
    (hb : (1 - pn) * (ps : Int) ≤ (U64 : Int)) :
    (vfsOffset pn ps : Int) = (U64 : Int) - (1 - pn) * (ps : Int)
    ∧ (0 < m.sizePages →
        readPageCalls m pn ps = [((vfsOffset pn ps + 8) % U64, ps)])
    ∧ (pn = 0 → ps = 4096 →
        vfsOffset pn ps = U64 - 4096
        ∧ (0 < m.sizePages → readPageCalls m pn ps = [(U64 - 4096 + 8, ps)])) := by
  have hA : (pn - 1) * (ps : Int) = -((1 - pn) * (ps : Int)) := by ring
  have hpos : 0 < (1 - pn) * (ps : Int) :=
    mul_pos (by omega) (by exact_mod_cast hps)
  have hU0 : (0 : Int) < (U64 : Int) := by norm_num [U64]
  have h0 : 0 ≤ (pn - 1) * (ps : Int) + (U64 : Int) := by
    rw [hA]
    linarith
  have h1 : (pn - 1) * (ps : Int) + (U64 : Int) < (U64 : Int) := by
    rw [hA]
    linarith
  have e1 : ((pn - 1) * (ps : Int)) % (U64 : Int) =
      (pn - 1) * (ps : Int) + (U64 : Int) := by
    have h2 := Int.add_mul_emod_self_left ((pn - 1) * (ps : Int)) ((U64 : Nat) : Int) 1
    rw [mul_one] at h2
    rw [← h2, Int.emod_eq_of_lt h0 h1]
  have hcast : (vfsOffset pn ps : Int) = ((pn - 1) * (ps : Int)) % (U64 : Int) := by
    unfold vfsOffset
    exact Int.toNat_of_nonneg (Int.emod_nonneg _ (by omega))
  refine ⟨?_, fun hsz => ?_, fun hz hz2 => ?_⟩
  · rw [hcast, e1, hA]
    ring
  · unfold readPageCalls readCalls
    rw [if_pos hsz]
  · subst hz
    subst hz2
    refine ⟨by decide, fun hsz => ?_⟩
    unfold readPageCalls readCalls
    rw [if_pos hsz]
    decide

theorem C10_wraparound_witness :
    (0 : Int) ≤ 0 ∧ 0 < 4096
    ∧ (1 - (0 : Int)) * ((4096 : Nat) : Int) ≤ (U64 : Int)
    ∧ vfsOffset 0 4096 = U64 - 4096
    ∧ readPageCalls memOne 0 4096 = [(U64 - 4096 + 8, 4096)] := by
  have h := C10_wraparound 0 4096 memOne (le_refl 0) (by decide) (by decide)
  have h3 := h.2.2 rfl rfl
  exact ⟨le_refl 0, by decide, by decide, h3.1, h3.2 (by decide)⟩

end ICSqlite
